import Mathlib

/-!
# Erigon debugging commands: `dbget` and `calcroot`

A shallow embedding of `turbo/app/dbget_cmd.go` and `turbo/app/calc_root.go`.

* Go byte slices are lists of naturals below 256; a nil slice is the empty list.
* Go strings are Lean strings, inspected through their list of characters,
  and through their UTF-8 bytes where the code reads bytes (`hex.DecodeString`).
* Everything a command does to the outside world is recorded, in order, in a
  trace of events; `utils.Fatalf` stops the process, and a run that met it
  ends in the error result that holds its message.
* What the collaborators outside these two files answer (logger setup, the
  database, the commitment engine, the trie loader) is an explicit argument.
-/

namespace Erigon

/-! ## Values -/

/-- A Go byte slice. -/
abbrev Bytes := List Nat

/-- Modelled from the spec: the error taxonomy of the trie core, whose
    packages (`commitment`, `trie`) are not among the source files. -/
inductive CoreError where
  | DuplicateKeyError
  | CorruptNodeError
  | CorruptValueError
  | IterationError
  | CancelledError
  deriving DecidableEq, Repr

/-- Go error values that reach these two files. -/
inductive Error where
  /-- An error of the trie core. -/
  | core (e : CoreError)
  /-- An error produced by a collaborator outside these files. -/
  | external (msg : String)
  /-- The value `hex.InvalidByteError` of a byte. -/
  | hexInvalidByte (b : Nat)
  /-- The value `hex.ErrLength`. -/
  | hexErrLength
  /-- A `strconv.NumError` wrapping `strconv.ErrSyntax`. -/
  | numErrSyntax (s : String)
  /-- A `strconv.NumError` wrapping `strconv.ErrRange`. -/
  | numErrRange (s : String)
  /-- The value `errors.New("not equal")`. -/
  | notEqual
  deriving DecidableEq, Repr

instance {ε α : Type} [DecidableEq ε] [DecidableEq α] : DecidableEq (Except ε α) :=
  fun x y =>
    match x, y with
    | .ok a, .ok b => if h : a = b then isTrue (by rw [h]) else isFalse (by intro e; cases e; exact h rfl)
    | .error a, .error b =>
      if h : a = b then isTrue (by rw [h]) else isFalse (by intro e; cases e; exact h rfl)
    | .ok _, .error _ => isFalse (by intro e; cases e)
    | .error _, .ok _ => isFalse (by intro e; cases e)

/-! ## The Go standard library functions the commands call -/

/-- One byte under the verb `%x`: two lowercase hexadecimal digits. -/
def hexByte (b : Nat) : List Char :=
  [Nat.digitChar (b / 16 % 16), Nat.digitChar (b % 16)]

/-- A byte slice under the verb `%x`. -/
def fmtHex (bs : Bytes) : String :=
  String.mk (bs.flatMap hexByte)

/-- Left-justify in a field of the given width, as the flag `-` does. -/
def padRight (w : Nat) (s : String) : String :=
  String.mk (s.data ++ List.replicate (w - s.data.length) ' ')

/-- A byte slice under the verb `%-80x`. -/
def fmtHex80 (bs : Bytes) : String :=
  padRight 80 (fmtHex bs)

/-- The bytes of one character of a Go string, which holds UTF-8. -/
def utf8Bytes (c : Char) : List Nat :=
  let v := c.toNat
  if v ≤ 0x7f then [v]
  else if v ≤ 0x7ff then [0xc0 + v / 64, 0x80 + v % 64]
  else if v ≤ 0xffff then [0xe0 + v / 4096, 0x80 + v / 64 % 64, 0x80 + v % 64]
  else [0xf0 + v / 262144, 0x80 + v / 4096 % 64, 0x80 + v / 64 % 64, 0x80 + v % 64]

/-- The conversion `[]byte(s)`. -/
def goBytes (s : String) : Bytes :=
  s.data.flatMap utf8Bytes

/-- The value of one hexadecimal digit, `hex.reverseHexTable`, by byte: the
    digits `0`-`9`, `a`-`f` and `A`-`F`. -/
def fromHexChar (c : Nat) : Option Nat :=
  if 48 ≤ c ∧ c ≤ 57 then some (c - 48)
  else if 97 ≤ c ∧ c ≤ 102 then some (c - 97 + 10)
  else if 65 ≤ c ∧ c ≤ 70 then some (c - 65 + 10)
  else none

/-- The loop of `hex.Decode`, two bytes at a time: the bytes decoded before
    the loop stopped, and the error that stopped it. -/
def hexDecode : Bytes → Bytes × Option Error
  | [] => ([], none)
  | [p] =>
    match fromHexChar p with
    | none => ([], some (.hexInvalidByte p))
    | some _ => ([], some .hexErrLength)
  | p :: q :: rest =>
    match fromHexChar p with
    | none => ([], some (.hexInvalidByte p))
    | some a =>
      match fromHexChar q with
      | none => ([], some (.hexInvalidByte q))
      | some b => ((a * 16 + b) :: (hexDecode rest).1, (hexDecode rest).2)

/-- The function `hex.DecodeString`. -/
def hexDecodeString (s : String) : Bytes × Option Error :=
  hexDecode (goBytes s)

/-- The largest `uint64`. -/
def maxUint64 : Nat := 2 ^ 64 - 1

/-- The loop of `strconv.ParseUint` for base 10 and bit size 64: `n` is the
    `uint64` accumulated so far, `s0` the whole input for the error value. -/
def parseUintLoop (s0 : String) : Nat → List Char → Except Error Nat
  | n, [] => .ok n
  | n, c :: cs =>
    if '0' ≤ c ∧ c ≤ '9' then
      let d := c.toNat - '0'.toNat
      if d ≥ 10 then .error (.numErrSyntax s0)
      else if n ≥ maxUint64 / 10 + 1 then .error (.numErrRange s0)
      else
        let n10 := (n * 10) % 2 ^ 64
        let n1 := (n10 + d) % 2 ^ 64
        if n1 < n10 ∨ n1 > maxUint64 then .error (.numErrRange s0)
        else parseUintLoop s0 n1 cs
    else .error (.numErrSyntax s0)

/-- The call `strconv.ParseUint(s, 10, 64)`. -/
def parseUint (s : String) : Except Error Nat :=
  if s.data = [] then .error (.numErrSyntax s) else parseUintLoop s 0 s.data

/-- The call `binary.BigEndian.PutUint64` on a fresh 8-byte buffer. -/
def putUint64 (v : Nat) : Bytes :=
  [v / 2 ^ 56 % 256, v / 2 ^ 48 % 256, v / 2 ^ 40 % 256, v / 2 ^ 32 % 256,
   v / 2 ^ 24 % 256, v / 2 ^ 16 % 256, v / 2 ^ 8 % 256, v % 256]

/-- A byte slice read as a big-endian unsigned integer. -/
def bigEndianValue (bs : Bytes) : Nat :=
  bs.foldl (fun acc b => acc * 256 + b) 0

/-- The test `len(key) > 2 && key[:2] == "0x"`. -/
def has0x (key : String) : Bool :=
  match key.data with
  | '0' :: 'x' :: _ :: _ => true
  | _ => false

/-- The slice `key[2:]`. -/
def drop2 (key : String) : String :=
  String.mk (key.data.drop 2)

/-! ## Traces and results -/

/-- A read issued on a database transaction. -/
inductive DbOp where
  | GetOne (table : String) (key : Bytes)
  | ForEach (table : String) (fromKey : Bytes)
  | Range (table : String) (fromKey toKey : Bytes)
  | RangeDupSort (table : String) (key fromKey toKey : Bytes) (asc : Bool) (limit : Int)
  deriving DecidableEq, Repr

/-- What a command does to the outside world. -/
inductive Event where
  /-- Text written by `fmt.Printf`. -/
  | stdout (s : String)
  /-- The call `MakeConfigNodeDefault`. -/
  | makeConfigNode
  /-- The call `node.OpenDatabase`. -/
  | openDatabase
  /-- The call `chaindb.AllTables`. -/
  | allTables
  /-- The call `chaindb.View`. -/
  | view
  /-- A read on the transaction of a view. -/
  | db (op : DbOp)
  /-- A deferred `Close` that runs when the function returns. -/
  | close (what : String)
  deriving DecidableEq, Repr

/-- The call `utils.Fatalf`: the format and its argument; the process exits. -/
structure Fatal where
  format : String
  arg : Option Error
  deriving DecidableEq, Repr

/-- A run of a piece of a command: the events so far, then either a value or
    the fatal exit that stopped the process. -/
structure Run (α : Type) where
  trace : List Event
  res : Except Fatal α

namespace Run

/-- Continue with the value of the first run, unless it ended the process. -/
def andThen {α β : Type} (x : Run α) (f : α → Run β) : Run β :=
  match x.res with
  | .error e => ⟨x.trace, .error e⟩
  | .ok a => ⟨x.trace ++ (f a).trace, (f a).res⟩

instance : Monad Run where
  pure a := ⟨[], .ok a⟩
  bind := andThen

/-- Record one event. -/
def emit (e : Event) : Run Unit := ⟨[e], .ok ()⟩

/-- The call `fmt.Printf` with its text already formatted. -/
def printf (s : String) : Run Unit := emit (.stdout s)

/-- The call `utils.Fatalf`. -/
def fatalf {α : Type} (format : String) (arg : Option Error) : Run α :=
  ⟨[], .error ⟨format, arg⟩⟩

/-- The lines written to standard output. -/
def output {α : Type} (x : Run α) : List String :=
  x.trace.filterMap (fun e => match e with | .stdout s => some s | _ => none)

/-- The database reads issued. -/
def reads {α : Type} (x : Run α) : List DbOp :=
  x.trace.filterMap (fun e => match e with | .db op => some op | _ => none)

end Run

/-! ## The trie core

The packages `commitment` and `trie` are not among the source files; their
behaviour is taken from the specification, sections 3 and 4. -/

/-- Modelled from the spec: NibblePath, "an ordered sequence of nibbles (0-15)
    derived from a byte key". -/
abbrev NibblePath := List Nat

/-- Modelled from the spec: the nibble path "derived from a byte key", the high
    half of each byte first. -/
def toNibbles (key : Bytes) : NibblePath :=
  key.flatMap (fun b => [b / 16 % 16, b % 16])

/-- Modelled from the spec: NibblePath "common-prefix-length computation". -/
def commonPrefixLen : NibblePath → NibblePath → Nat
  | a :: as, b :: bs => if a = b then commonPrefixLen as bs + 1 else 0
  | _, _ => 0

/-- Modelled from the spec: a node hash, "fixed-width bytes". -/
abbrev Hash := Bytes

/-- Modelled from the spec: TrieNode, "a tagged variant" of Leaf, Extension,
    Branch and HashOnly. -/
inductive TrieNode where
  | Leaf (remainingPath : NibblePath) (value : Bytes)
  | Extension (sharedPath : NibblePath) (childHash : Hash)
  | Branch (children : List (Nat × Hash)) (value : Option Bytes)
  | HashOnly (hash : Hash)
  deriving DecidableEq, Repr

/-- Modelled from the spec: NodeCodec, the external collaborator that gives "a
    canonical byte encoding" of a node and "a fixed-width cryptographic hash of
    that encoding", with "the empty-trie sentinel value". -/
structure NodeCodec where
  encode : TrieNode → Bytes
  hash : Bytes → Hash
  emptyRoot : Hash

/-- Modelled from the spec: the hash by which a parent refers to a node; a
    collapsed subtree is "known only by its hash". -/
def NodeCodec.nodeHash (c : NodeCodec) : TrieNode → Hash
  | .HashOnly h => h
  | n => c.hash (c.encode n)

/-! ### RetainDecider -/

/-- Modelled from the spec: one of the "nibble-prefix patterns (exact or
    wildcard-suffixed)" of a retain list. -/
inductive RetainPattern where
  | exact (p : NibblePath)
  | wildcard (p : NibblePath)
  deriving DecidableEq, Repr

/-- Modelled from the spec: whether a pattern covers a nibble path. -/
def RetainPattern.covers : RetainPattern → NibblePath → Bool
  | .exact p, q => decide (q = p)
  | .wildcard p, q => decide (q.take p.length = p)

/-- Modelled from the spec: RetainList, "a set of nibble-prefix patterns". -/
structure RetainList where
  patterns : List RetainPattern

/-- Modelled from the spec: `shouldRetain(prefix: NibblePath) -> bool`, "pure
    function of the prefix (and decider configuration)". -/
def RetainList.shouldRetain (rl : RetainList) (p : NibblePath) : Bool :=
  rl.patterns.any (fun pat => pat.covers p)

/-- Modelled from the spec: `trie.NewRetainList`, which creates the decider
    "configured with an empty retain set"; the spec does not describe its
    argument. -/
def NewRetainList (_minLength : Nat) : RetainList := ⟨[]⟩

/-! ### Commitment Engine -/

/-- Modelled from the spec: Update, `{key: bytes, value: optional bytes}`;
    "`value = none` denotes deletion". -/
structure Update where
  key : Bytes
  value : Option Bytes
  deriving DecidableEq, Repr

/-- Modelled from the spec: the trie the engine keeps in memory, with the node
    kinds of TrieNode and the children in place of their hashes. -/
inductive Trie where
  | empty
  | leaf (remainingPath : NibblePath) (value : Bytes)
  | ext (sharedPath : NibblePath) (child : Trie)
  | branch (children : Nat → Trie) (value : Option Bytes)

namespace Trie

/-- Modelled from the spec: "the trie is now empty". -/
def isEmpty : Trie → Bool
  | .empty => true
  | _ => false

/-- Modelled from the spec: a branch with no child. -/
def noChildren : Nat → Trie := fun _ => .empty

/-- Modelled from the spec: the children of a branch with one of them replaced. -/
def setChild (cs : Nat → Trie) (n : Nat) (t : Trie) : Nat → Trie :=
  fun m => if m = n then t else cs m

/-- Modelled from the spec: path compression, a subtrie below a shared path
    ("collapses to Extension/Leaf"). -/
def joinPath (p : NibblePath) : Trie → Trie
  | .empty => .empty
  | .leaf q w => .leaf (p ++ q) w
  | .ext s c => .ext (p ++ s) c
  | .branch cs v => if p = [] then .branch cs v else .ext p (.branch cs v)

/-- Modelled from the spec: a value put at the end of a path below a branch. -/
def hang (cs : Nat → Trie) (bv : Option Bytes) (p : NibblePath) (v : Bytes) :
    (Nat → Trie) × Option Bytes :=
  match p with
  | [] => (cs, some v)
  | n :: r => (setChild cs n (.leaf r v), bv)

/-- Modelled from the spec: step 2 of `Process` for an insert or update: "a
    diverging Extension becomes two Extensions plus a new Branch; a Leaf with a
    differing full path becomes a Branch with two Leaf children". -/
def insert : Trie → NibblePath → Bytes → Trie
  | .empty, p, v => .leaf p v
  | .leaf q w, p, v =>
    if p = q then .leaf q v
    else
      let k := commonPrefixLen p q
      let old := hang noChildren none (q.drop k) w
      let both := hang old.1 old.2 (p.drop k) v
      joinPath (p.take k) (.branch both.1 both.2)
  | .ext s child, p, v =>
    let k := commonPrefixLen p s
    if k = s.length then .ext s (insert child (p.drop k) v)
    else
      match s.drop k with
      | [] => .ext s child
      | n :: r =>
        let both := hang (setChild noChildren n (joinPath r child)) none (p.drop k) v
        joinPath (s.take k) (.branch both.1 both.2)
  | .branch cs bv, p, v =>
    match p with
    | [] => .branch cs (some v)
    | n :: r => .branch (setChild cs n (insert (cs n) r v)) bv

/-- Modelled from the spec: a Branch "always has ≥2 non-empty children
    (collapses to Extension/Leaf otherwise)". -/
def collapse (cs : Nat → Trie) (bv : Option Bytes) : Trie :=
  match (List.range 16).filter (fun n => !(cs n).isEmpty), bv with
  | [], none => .empty
  | [], some v => .leaf [] v
  | [n], none => joinPath [n] (cs n)
  | _, _ => .branch cs bv

/-- Modelled from the spec: step 2 of `Process` for a deletion: "a deletion on a
    Leaf removes it and may trigger parent Branch→Extension/Leaf collapse if
    only one child remains". -/
def delete : Trie → NibblePath → Trie
  | .empty, _ => .empty
  | .leaf q w, p => if p = q then .empty else .leaf q w
  | .ext s child, p =>
    if p.take s.length = s then joinPath s (delete child (p.drop s.length))
    else .ext s child
  | .branch cs bv, p =>
    match p with
    | [] => collapse cs none
    | n :: r => collapse (setChild cs n (delete (cs n) r)) bv

/-- Modelled from the spec: whether a node of the trie stands at a nibble
    prefix, the key of its entry in the Commitment Context. -/
def hasNodeAt : Trie → NibblePath → Bool
  | .empty, _ => false
  | .leaf _ _, p => decide (p = [])
  | .ext s child, p =>
    decide (p = []) || (decide (p.take s.length = s) && hasNodeAt child (p.drop s.length))
  | .branch cs _, p =>
    match p with
    | [] => true
    | n :: r => hasNodeAt (cs n) r

/-- Modelled from the spec: one update applied to the trie. -/
def apply (t : Trie) (u : Update) : Trie :=
  match u.value with
  | some v => t.insert (toNibbles u.key) v
  | none => t.delete (toNibbles u.key)

end Trie

/-- Modelled from the spec: Commitment Context, "a cache of node hashes along
    paths touched by prior batches, keyed by nibble prefix"; an entry that
    "fails to decode" is `none`. -/
abbrev HashCache := List (NibblePath × Option Hash)

/-- Modelled from the spec: the state of one Commitment Engine instance: the
    "current trie state" and the Commitment Context it owns. -/
structure Engine where
  trie : Trie
  cache : HashCache

/-- Modelled from the spec: the engine a caller creates, over the empty trie
    with nothing cached. -/
def Engine.fresh : Engine := ⟨.empty, []⟩

/-- Modelled from the spec: the order of keys used to "sort `updateBatch` by
    key", byte by byte. -/
def keyLe : Bytes → Bytes → Bool
  | [], _ => true
  | _ :: _, [] => false
  | a :: as, b :: bs => if a < b then true else if b < a then false else keyLe as bs

/-- Modelled from the spec: an update put in its place in a sorted batch. -/
def insertSorted (u : Update) : List Update → List Update
  | [] => [u]
  | x :: xs => if keyLe u.key x.key then u :: x :: xs else x :: insertSorted u xs

/-- Modelled from the spec: step 1 of `Process`, "sort `updateBatch` by key". -/
def sortBatch : List Update → List Update
  | [] => []
  | u :: us => insertSorted u (sortBatch us)

/-- Modelled from the spec: step 1 of `Process`, "two updates share a key", on
    the sorted batch. -/
def hasDuplicateKey : List Update → Bool
  | a :: b :: rest => decide (a.key = b.key) || hasDuplicateKey (b :: rest)
  | _ => false

/-- Modelled from the spec: step 2 of `Process`, the updates applied in order,
    with "cooperative cancellation observed between update steps": `cancelled i`
    tells whether the check before update number `i` sees a cancellation. -/
def applyBatch (cancelled : Nat → Bool) : Nat → Trie → List Update → Except CoreError Trie
  | _, t, [] => .ok t
  | i, t, u :: us =>
    if i ≠ 0 ∧ cancelled i = true then .error .CancelledError
    else applyBatch cancelled (i + 1) (t.apply u) us

/-- Modelled from the spec: whether a nibble prefix lies on a touched path,
    the path of one of the updates. -/
def isTouched (batch : List Update) (p : NibblePath) : Bool :=
  batch.any (fun u => decide ((toNibbles u.key).take p.length = p))

/-- Modelled from the spec: step 3 of `Process` at one node: on a touched path
    the hash is recomputed and recorded; elsewhere "untouched siblings reuse
    cached hashes from the Commitment Context", a cached node that "fails to
    decode" is a CorruptNodeError, and a hash that is not cached is computed
    without being recorded. -/
def viaCache (cache : HashCache) (batch : List Update) (p : NibblePath)
    (compute : Except CoreError (Hash × List (NibblePath × Hash))) :
    Except CoreError (Hash × List (NibblePath × Hash)) :=
  if isTouched batch p then
    match compute with
    | .error e => .error e
    | .ok (h, computed) => .ok (h, (p, h) :: computed)
  else
    match cache.lookup p with
    | some (some h) => .ok (h, [])
    | some none => .error .CorruptNodeError
    | none =>
      match compute with
      | .error e => .error e
      | .ok (h, _) => .ok (h, [])

/-- Modelled from the spec: the hashes of the children of a branch gathered in
    nibble order, the first error winning. -/
def gather : List (Nat × Except CoreError (Hash × List (NibblePath × Hash))) →
    Except CoreError (List (Nat × Hash) × List (NibblePath × Hash))
  | [] => .ok ([], [])
  | (_, .error e) :: _ => .error e
  | (n, .ok (h, computed)) :: rest =>
    match gather rest with
    | .error e => .error e
    | .ok (hs, more) => .ok ((n, h) :: hs, computed ++ more)

/-- Modelled from the spec: step 3 of `Process`, "recompute hashes bottom-up":
    the hash of the node at nibble prefix `p` from the hashes of its children,
    and the hashes newly computed along touched paths. -/
def hashNode (c : NodeCodec) (cache : HashCache) (batch : List Update) :
    Trie → NibblePath → Except CoreError (Hash × List (NibblePath × Hash))
  | .empty, _ => .ok (c.emptyRoot, [])
  | .leaf q v, _ => .ok (c.hash (c.encode (.Leaf q v)), [])
  | .ext s child, p =>
    match viaCache cache batch (p ++ s) (hashNode c cache batch child (p ++ s)) with
    | .error e => .error e
    | .ok (h, computed) => .ok (c.hash (c.encode (.Extension s h)), computed)
  | .branch cs bv, p =>
    match gather ((List.range 16).filterMap (fun n =>
        if (cs n).isEmpty then none
        else some (n, viaCache cache batch (p ++ [n])
          (hashNode c cache batch (cs n) (p ++ [n]))))) with
    | .error e => .error e
    | .ok (hs, computed) => .ok (c.hash (c.encode (.Branch hs bv)), computed)

/-- Modelled from the spec: step 5 of `Process`, "the new root hash (or the
    empty-trie sentinel if the trie is now empty)". -/
def rootOf (c : NodeCodec) (cache : HashCache) (batch : List Update) (t : Trie) :
    Except CoreError (Hash × List (NibblePath × Hash)) :=
  if t.isEmpty then .ok (c.emptyRoot, [])
  else viaCache cache batch [] (hashNode c cache batch t [])

/-- Modelled from the spec: step 4 of `Process`, "update the Commitment Context
    with newly computed hashes along touched paths; evict entries invalidated by
    structural changes (collapsed/split nodes)": an entry is dropped when its
    nibble prefix lies on a touched path, or held a node before the batch and
    holds none after it. -/
def updateCache (cache : HashCache) (batch : List Update) (before after : Trie)
    (computed : List (NibblePath × Hash)) : HashCache :=
  cache.filter (fun e => !isTouched batch e.1 && !(before.hasNodeAt e.1 && !after.hasNodeAt e.1))
    ++ computed.map (fun e => (e.1, some e.2))

/-- Modelled from the spec: `Process(context, updateBatch, label) ->
    (rootHash, error)`, steps 1 to 5; the engine after the call is returned
    with the root, and an error leaves the engine as it was. The label only
    names the call and is left out. -/
def Process (c : NodeCodec) (cancelled : Nat → Bool) (e : Engine) (updateBatch : List Update) :
    Except CoreError (Hash × Engine) :=
  let batch := sortBatch updateBatch
  if hasDuplicateKey batch then .error .DuplicateKeyError
  else
    match applyBatch cancelled 0 e.trie batch with
    | .error err => .error err
    | .ok t =>
      match rootOf c e.cache batch t with
      | .error err => .error err
      | .ok (root, computed) => .ok (root, ⟨t, updateCache e.cache batch e.trie t computed⟩)

/-! ### Flat Trie Loader -/

/-- Modelled from the spec: a node-event, one callback invocation:
    `onAccountNode(prefix, presenceBitmap, treeBitmap, hashBitmap, childHashes,
    nodeHash)`, or `onStorageNode(accountKeyWithIncarnation, ...sameFields)`
    when `account` is set. -/
structure NodeEvent where
  account : Option Bytes
  pfx : NibblePath
  presenceBitmap : Nat
  treeBitmap : Nat
  hashBitmap : Nat
  childHashes : List Hash
  nodeHash : Hash
  deriving DecidableEq, Repr

/-- Modelled from the spec: what the loader does with a stored value: whether
    it "cannot be decoded into the expected account/storage shape", and how a
    storage root is "embedded in that account's Leaf/Branch encoding". -/
structure ValueShape where
  accountOk : Bytes → Bool
  storageOk : Bytes → Bool
  withStorageRoot : Bytes → Hash → Bytes

/-- Modelled from the spec: what the "lazy sequence of (key, bytes)" yields at
    one step: a pair, or an "underlying store read failure". -/
inductive Read where
  | entry (key value : Bytes)
  | failure
  deriving DecidableEq, Repr

/-- Modelled from the spec: a child accumulated in a frame: its nibble, the
    node, and whether it "is itself a retained subtree". -/
abbrev FrameChild := Nat × TrieNode × Bool

/-- Modelled from the spec: a frame of the Depth Stack, "one per nibble depth
    currently under construction, each accumulating children"; its depth is
    the length of its nibble prefix. -/
structure Frame where
  pfx : NibblePath
  value : Option Bytes
  children : List FrameChild
  deriving DecidableEq, Repr

/-- Modelled from the spec: "a single open frame at depth 0". -/
def Frame.root : Frame := ⟨[], none, []⟩

/-- Modelled from the spec: a bitmap over nibbles 0-15. -/
def bitmap (nibbles : List Nat) : Nat :=
  (nibbles.map (fun n => 2 ^ n)).sum % 2 ^ 16

/-- Modelled from the spec: whether a child is a hash reference, for the
    bitmap "child's hash is directly known". -/
def TrieNode.isLeaf : TrieNode → Bool
  | .Leaf _ _ => true
  | _ => false

/-- Modelled from the spec: a frame with one child and no value is no Branch
    ("always has ≥2 non-empty children"): the child moves up with its path
    grown by the nibble, as a Leaf or an Extension. -/
def extendPath (c : NodeCodec) (n : Nat) : TrieNode → TrieNode
  | .Leaf q v => .Leaf (n :: q) v
  | .Extension s h => .Extension (n :: s) h
  | .Branch cs v => .Extension [n] (c.hash (c.encode (.Branch cs v)))
  | .HashOnly h => .Extension [n] h

/-- Modelled from the spec: closing a frame: "finalize its Branch/Extension
    encoding from accumulated children, compute its hash via NodeCodec, and —
    if `shouldRetain(framePrefix)` is true — invoke the corresponding callback
    with the frame's bitmaps and child hashes; otherwise the frame collapses
    silently into a `HashOnly` reference folded into its parent frame". The
    result is the child to fold into the parent and the callbacks invoked. -/
def closeFrame (c : NodeCodec) (rl : RetainList) (account : Option Bytes) (f : Frame) :
    Option (TrieNode × Bool) × List NodeEvent :=
  match f.value, f.children with
  | none, [] => (none, [])
  | some v, [] => (some (.Leaf [] v, false), [])
  | none, [(n, child, kept)] => (some (extendPath c n child, kept), [])
  | v, cs =>
    let hashes := cs.map (fun x => (x.1, c.nodeHash x.2.1))
    let node := TrieNode.Branch hashes v
    let h := c.hash (c.encode node)
    if rl.shouldRetain f.pfx then
      (some (node, true),
       [{ account := account, pfx := f.pfx,
          presenceBitmap := bitmap (cs.map (fun x => x.1)),
          treeBitmap := bitmap ((cs.filter (fun x => x.2.2)).map (fun x => x.1)),
          hashBitmap := bitmap ((cs.filter (fun x => !x.2.1.isLeaf)).map (fun x => x.1)),
          childHashes := hashes.map (fun x => x.2),
          nodeHash := h }])
    else (some (.HashOnly h, false), [])

/-- Modelled from the spec: a closed frame "folded into its parent frame". -/
def Frame.fold (f : Frame) (child : Option FrameChild) : Frame :=
  match child with
  | none => f
  | some x => { f with children := f.children ++ [x] }

/-- Modelled from the spec: step 2 of `CalcTrieRoot`: "for every open frame at
    a depth `> commonPrefixLen`, close it ... Pop closed frames off the stack".
    The stack has its deepest frame first; `pending` is the closed frame still
    to be folded into the next one. -/
def closeAbove (c : NodeCodec) (rl : RetainList) (account : Option Bytes) (depth : Nat) :
    List Frame → Option FrameChild → List Frame × List NodeEvent
  | [], _ => ([], [])
  | f :: rest, pending =>
    if (f.fold pending).pfx.length > depth then
      let closed := closeFrame c rl account (f.fold pending)
      let below := closeAbove c rl account depth rest
        (closed.1.map (fun x => ((f.fold pending).pfx.getLastD 0, x.1, x.2)))
      (below.1, closed.2 ++ below.2)
    else (f.fold pending :: rest, [])

/-- Modelled from the spec: the nibble prefix of the deepest open frame, the
    path of "the previous key". -/
def topPath : List Frame → NibblePath
  | [] => []
  | f :: _ => f.pfx

/-- Modelled from the spec: step 3 of `CalcTrieRoot`, "opening intermediate
    frames as needed for the path between `commonPrefixLen` and the full key
    depth": the frames for the depths above `depth`, deepest first. -/
def openFrames (key : NibblePath) (depth : Nat) : List Frame :=
  ((List.range (key.length - depth)).map
    (fun i => (⟨key.take (depth + i + 1), none, []⟩ : Frame))).reverse

/-- Modelled from the spec: the value of the key that ends at the deepest
    open frame. -/
def setValue (v : Bytes) : List Frame → List Frame
  | [] => []
  | f :: rest => { f with value := some v } :: rest

/-- Modelled from the spec: steps 2 and 3 of `CalcTrieRoot` for one `(key,
    value)` pair of a trie. -/
def addKey (c : NodeCodec) (rl : RetainList) (account : Option Bytes)
    (stack : List Frame) (key : NibblePath) (v : Bytes) : List Frame × List NodeEvent :=
  let closed := closeAbove c rl account (commonPrefixLen (topPath stack) key) stack none
  (setValue v (openFrames key (topPath closed.1).length ++ closed.1), closed.2)

/-- Modelled from the spec: step 4 of `CalcTrieRoot`: "close all remaining open
    frames down to depth 0 using the same rule as step 2; the depth-0 closure
    yields the final root hash"; "an empty input range yields the empty-trie
    sentinel". -/
def finish (c : NodeCodec) (rl : RetainList) (account : Option Bytes) (stack : List Frame) :
    Hash × List NodeEvent :=
  let closed := closeAbove c rl account 0 stack none
  match closed.1 with
  | [] => (c.emptyRoot, closed.2)
  | f :: _ =>
    let top := closeFrame c rl account f
    match top.1 with
    | none => (c.emptyRoot, closed.2 ++ top.2)
    | some (node, _) => (c.nodeHash node, closed.2 ++ top.2)

/-- Modelled from the spec: the account under construction: its key, its
    stored value and the Depth Stack of its "nested per-account storage
    sub-loader". -/
structure OpenAccount where
  key : Bytes
  value : Bytes
  storage : List Frame

/-- Modelled from the spec: the working state of one load: the Depth Stack of
    the account trie, the account whose storage keys are being read, and the
    callbacks invoked so far. -/
structure Loader where
  accounts : List Frame
  current : Option OpenAccount
  events : List NodeEvent

/-- Modelled from the spec: the start of a load, the Depth Stack "initially
    empty (conceptually a single open frame at depth 0)". -/
def Loader.start : Loader := ⟨[Frame.root], none, []⟩

/-- Modelled from the spec: the end of an account: the root of its storage
    sub-loader "becomes the storage-root value embedded in that account's
    Leaf/Branch encoding in the outer (account) trie". -/
def Loader.flush (c : NodeCodec) (shape : ValueShape) (rl : RetainList) (l : Loader) : Loader :=
  match l.current with
  | none => l
  | some a =>
    let sub := finish c rl (some a.key) a.storage
    let added := addKey c rl none l.accounts (toNibbles a.key)
      (shape.withStorageRoot a.value sub.1)
    ⟨added.1, none, l.events ++ sub.2 ++ added.2⟩

/-- Modelled from the spec: "keys prefixed by an account identifier route
    through a nested per-account storage sub-loader". -/
def isStorageKey (account key : Bytes) : Bool :=
  decide (key.take account.length = account ∧ account.length < key.length)

/-- Modelled from the spec: one `(key, value)` pair of the range. -/
def Loader.step (c : NodeCodec) (shape : ValueShape) (rl : RetainList) (l : Loader)
    (key value : Bytes) : Except CoreError Loader :=
  match l.current with
  | some a =>
    if isStorageKey a.key key then
      if shape.storageOk value then
        let added := addKey c rl (some a.key) a.storage (toNibbles (key.drop a.key.length)) value
        .ok ⟨l.accounts, some ⟨a.key, a.value, added.1⟩, l.events ++ added.2⟩
      else .error .CorruptValueError
    else if shape.accountOk value then
      .ok { l.flush c shape rl with current := some ⟨key, value, [Frame.root]⟩ }
    else .error .CorruptValueError
  | none =>
    if shape.accountOk value then .ok { l with current := some ⟨key, value, [Frame.root]⟩ }
    else .error .CorruptValueError

/-- Modelled from the spec: the result of a load: the callbacks invoked, in
    order, and the root or the error. -/
structure LoaderRun where
  events : List NodeEvent
  result : Except Error Hash

/-- Modelled from the spec: the "single forward pass over an already key-sorted
    iterator": a read failure "aborts immediately with no root"; cancellation is
    "checked between processing one key/update and the next", `cancelled i`
    telling whether the check before pair number `i` sees one. -/
def Loader.run (c : NodeCodec) (shape : ValueShape) (rl : RetainList) (cancelled : Nat → Bool) :
    Nat → Loader → List Read → LoaderRun
  | _, l, [] =>
    let l1 := l.flush c shape rl
    let done := finish c rl none l1.accounts
    ⟨l1.events ++ done.2, .ok done.1⟩
  | _, l, .failure :: _ => ⟨l.events, .error (.core .IterationError)⟩
  | i, l, .entry key value :: rest =>
    if i ≠ 0 ∧ cancelled i = true then ⟨l.events, .error (.core .CancelledError)⟩
    else
      match l.step c shape rl key value with
      | .error e => ⟨l.events, .error (.core e)⟩
      | .ok l1 => Loader.run c shape rl cancelled (i + 1) l1 rest

/-- Modelled from the spec: `CalcTrieRoot(sortedKeyRange, retainDecider) ->
    (rootHash, error)` with its two registered callbacks. -/
def CalcTrieRoot (c : NodeCodec) (shape : ValueShape) (cancelled : Nat → Bool)
    (sortedKeyRange : List Read) (retainDecider : RetainList) : LoaderRun :=
  Loader.run c shape retainDecider cancelled 0 Loader.start sortedKeyRange

/-! ## The collaborators -/

/-- The table names of package `kv` that the commands mention. The package is
    not part of these files, so the names are arguments. -/
structure Kv where
  HeaderCanonical : String
  Headers : String
  BlockBody : String
  PlainState : String

/-- What each call of `Next` on a stream returns, in order; `HasNext` holds
    while the list is not empty. -/
abbrev Stream := List (Except Error (Bytes × Bytes))

/-- A read transaction `kv.Tx`, as the answers it gives. -/
structure Tx where
  GetOne : String → Bytes → Except Error Bytes
  /-- The pairs the cursor yields from the given key on, and the error that
      ends the walk, if any. -/
  ForEach : String → Bytes → List (Bytes × Bytes) × Option Error
  Range : String → Bytes → Bytes → Except Error Stream
  RangeDupSort : String → Bytes → Bytes → Bytes → Bool → Int → Except Error Stream

/-- The database `kv.RwDB`. -/
structure RwDB where
  /-- The table names in the order the loop over the map visits them. -/
  AllTables : List String
  /-- The read transaction a view runs in, or the error of starting one. -/
  beginRo : Except Error Tx

/-- The positional arguments of a `cli.Context`. -/
structure Cli where
  args : List String

/-- The call `cliCtx.Args().First()`. -/
def Cli.First (c : Cli) : String := c.args.getD 0 ""

/-- The call `cliCtx.Args().Get(n)`. -/
def Cli.Get (c : Cli) (n : Nat) : String := c.args.getD n ""

/-- What the process finds around it. -/
structure World where
  /-- The error of `debug.Setup`, if any. -/
  setup : Option Error
  /-- The result of `node.OpenDatabase`. -/
  openDatabase : Except Error RwDB

/-- The call `chaindb.View`: the function runs in a read transaction and its
    error is the error of the view. -/
def View (chaindb : RwDB) (f : Tx → Run (Option Error)) : Run (Option Error) := do
  Run.emit .view
  match chaindb.beginRo with
  | .error e => pure (some e)
  | .ok tx => f tx

/-- The loop `for stream.HasNext()` with a fatal exit on a failed `Next`. -/
def drain (line : Bytes → Bytes → String) (failed : String) : Stream → Run Unit
  | [] => pure ()
  | .error e :: _ => Run.fatalf failed (some e)
  | .ok (k, v) :: rest => do
    Run.printf (line k v)
    drain line failed rest

/-- The call `hex.DecodeString` followed by the fatal exit on an error. -/
def decodeOrFatal (s : String) : Run Bytes :=
  match (hexDecodeString s).2 with
  | some e => Run.fatalf "Failed to decode hex: %v" (some e)
  | none => pure (hexDecodeString s).1

/-- The key as both commands read it: hex, with an optional `0x` in front. -/
def decodeKey (key : String) : Run Bytes :=
  if has0x key then decodeOrFatal (drop2 key) else decodeOrFatal key

/-- The two argument checks the three commands start with. -/
def checkArgs (cliCtx : Cli) : Run (String × String) := do
  let dbname := cliCtx.First
  if dbname = "" then Run.fatalf "Must supply dbname" none
  else
    let key := cliCtx.Get 1
    if key = "" then Run.fatalf "Must supply key" none
    else pure (dbname, key)

/-- The calls `MakeConfigNodeDefault` and `node.OpenDatabase`. -/
def openChainDb (w : World) : Run RwDB := do
  Run.emit .makeConfigNode
  Run.emit .openDatabase
  match w.openDatabase with
  | .error e => Run.fatalf "Failed to open database: %v" (some e)
  | .ok chaindb => pure chaindb

/-- The two deferred calls, in the order they run. -/
def closeAll : Run Unit := do
  Run.emit (.close "chaindb")
  Run.emit (.close "stack")

/-! ## `dbget_cmd.go` -/

/-- The line `key=0x%x, val=0x%x`. -/
def lineKeyVal (k v : Bytes) : String :=
  "key=0x" ++ fmtHex k ++ ", val=0x" ++ fmtHex v ++ "\n"

/-- The line `key=0x%-80x, val=0x%-80x`. -/
def lineKeyVal80 (k v : Bytes) : String :=
  "key=0x" ++ fmtHex80 k ++ ", val=0x" ++ fmtHex80 v ++ "\n"

/-- The function passed to `chaindb.View` in `dbGetOne`. -/
def dbGetOneView (cliCtx : Cli) (dbname : String) (keybuf : Bytes) (tx : Tx) :
    Run (Option Error) := do
  (if dbname = "MaxTxNum" then do
    Run.emit (.db (.GetOne dbname keybuf))
    match tx.GetOne dbname keybuf with
    | .error e => Run.fatalf "Failed to get acc: %v" (some e)
    | .ok val => Run.printf ("0x" ++ fmtHex val ++ "\n")
  else if dbname = "AccountHistoryVals" then do
    let pfx := cliCtx.Get 2
    let pfxbuf ← (if pfx = "" then pure [] else decodeOrFatal pfx)
    Run.emit (.db (.RangeDupSort dbname keybuf pfxbuf [] true (-1)))
    match tx.RangeDupSort dbname keybuf pfxbuf [] true (-1) with
    | .error e => Run.fatalf "Failed to get acc: %v" (some e)
    | .ok stream => drain lineKeyVal "Failed to get value: %v" stream
  else if dbname = "AccountVals" then do
    Run.emit (.db (.GetOne dbname keybuf))
    match tx.GetOne dbname keybuf with
    | .error e => Run.fatalf "Failed to get acc: %v" (some e)
    | .ok val => Run.printf (lineKeyVal keybuf val)
  else if dbname = "AccountHistoryKeys" then do
    Run.emit (.db (.RangeDupSort dbname keybuf [] [] true (-1)))
    match tx.RangeDupSort dbname keybuf [] [] true (-1) with
    | .error e => Run.fatalf "Failed to get acc: %v" (some e)
    | .ok stream => drain lineKeyVal "Failed to get acc: %v" stream
  else pure () : Run Unit)
  pure none

/-- The function `dbGetOne` from the decoding of the key on. -/
def dbGetOneBody (w : World) (cliCtx : Cli) (dbname key : String) : Run (Option Error) := do
  let keybuf ← decodeKey key
  let chaindb ← openChainDb w
  let _ ← View chaindb (dbGetOneView cliCtx dbname keybuf)
  closeAll
  pure none

/-- The function `dbGetOne`. -/
def dbGetOne (w : World) (cliCtx : Cli) : Run (Option Error) :=
  match w.setup with
  | some err => pure (some err)
  | none => do
    let a ← checkArgs cliCtx
    dbGetOneBody w cliCtx a.1 a.2

/-- The `switch dbname` of `dbGet`: the table it selects and the key buffer. -/
def dbGetSwitch (kv : Kv) (dbname key : String) : Run (String × Bytes) :=
  if dbname = "header_canonical" ∨ dbname = "headercanonical" ∨ dbname = "headercan"
      ∨ dbname = "hc" then
    if has0x key then do
      let keybuf ← decodeOrFatal (drop2 key)
      pure (kv.HeaderCanonical, keybuf)
    else
      match parseUint key with
      | .error e => Run.fatalf "Failed to parse number: %v" (some e)
      | .ok number => do
        let keybuf := putUint64 number
        Run.printf ("keybuf: " ++ fmtHex keybuf ++ "\n")
        pure (kv.HeaderCanonical, keybuf)
  else if dbname = "headers" ∨ dbname = "head" ∨ dbname = "h" then do
    let keybuf ← decodeKey key
    pure (kv.Headers, keybuf)
  else if dbname = "block_body" ∨ dbname = "blockbody" ∨ dbname = "bb" then
    pure (kv.BlockBody, [])
  else if dbname = "account" then do
    let keybuf ← decodeOrFatal key
    pure (kv.PlainState, keybuf)
  else if dbname = "dump" then
    pure ("", [])
  else do
    let keybuf ← decodeKey key
    pure ("", keybuf)

/-- The function passed to `chaindb.View` for each table of `dumpall`. -/
def dumpTable (table : String) (tx : Tx) : Run (Option Error) := do
  Run.emit (.db (.Range table [] []))
  match tx.Range table [] [] with
  | .error e => Run.fatalf "Failed to get acc: %v" (some e)
  | .ok stream => do
    drain lineKeyVal80 "Failed to get acc: %v" stream
    pure none

/-- The loop over all tables of `dumpall`. -/
def dumpAll (chaindb : RwDB) : List String → Run Unit
  | [] => pure ()
  | table :: rest => do
    Run.printf ("table " ++ table ++ "\n")
    let _ ← View chaindb (dumpTable table)
    dumpAll chaindb rest

/-- The function passed to `chaindb.View` for `dump`. -/
def dumpOne (key : String) (tx : Tx) : Run (Option Error) := do
  Run.emit (.db (.Range key [] []))
  match tx.Range key [] [] with
  | .error e => Run.fatalf "Failed to get acc: %v" (some e)
  | .ok stream => do
    drain (fun k v => key ++ " " ++ lineKeyVal80 k v) "Failed to get acc: %v" stream
    pure none

/-- The walker passed to `tx.ForEach`, run over the pairs the cursor yields:
    it prints while the key equals the key buffer and stops the walk with
    `not equal` otherwise. -/
def walkEqual (keybuf : Bytes) (cursorErr : Option Error) :
    List (Bytes × Bytes) → Run (Option Error)
  | [] => pure cursorErr
  | (k, v) :: rest =>
    if k = keybuf then do
      Run.printf (lineKeyVal80 k v)
      walkEqual keybuf cursorErr rest
    else pure (some .notEqual)

/-- The function passed to the last `chaindb.View` of `dbGet`, up to the
    `return nil` that ends it; the statements after that one never run. -/
def dbGetView (dbname : String) (keybuf : Bytes) (tx : Tx) : Run (Option Error) := do
  Run.emit (.db (.ForEach dbname keybuf))
  let _ ← walkEqual keybuf (tx.ForEach dbname keybuf).2 (tx.ForEach dbname keybuf).1
  Run.printf "range dup sort\n"
  let fromPfx := (hexDecodeString "0000000000000194").1
  let toPfx := (hexDecodeString "0000000000000195").1
  Run.emit (.db (.RangeDupSort dbname keybuf fromPfx toPfx true (-1)))
  match tx.RangeDupSort dbname keybuf fromPfx toPfx true (-1) with
  | .error e => Run.fatalf "Failed to get acc: %v" (some e)
  | .ok stream => do
    drain lineKeyVal80 "Failed to get acc: %v" stream
    pure none

/-- The function `dbGet` from the opening of the database on. The table the
    switch selects is assigned and never read (`_ = table`). -/
def dbGetBody (kv : Kv) (w : World) (dbname key : String) : Run (Option Error) := do
  let chaindb ← openChainDb w
  let selected ← dbGetSwitch kv dbname key
  let keybuf := selected.2
  if dbname = "dumpall" then
    Run.emit .allTables
    dumpAll chaindb chaindb.AllTables
    closeAll
    pure none
  else if dbname = "dump" then
    Run.printf ("dump " ++ key ++ "\n")
    let _ ← View chaindb (dumpOne key)
    closeAll
    pure none
  else
    let _ ← View chaindb (dbGetView dbname keybuf)
    closeAll
    pure none

/-- The function `dbGet`. -/
def dbGet (kv : Kv) (w : World) (cliCtx : Cli) : Run (Option Error) :=
  match w.setup with
  | some err => pure (some err)
  | none => do
    let a ← checkArgs cliCtx
    dbGetBody kv w a.1 a.2

/-! ## `calc_root.go` -/

/-- The commitment engine as `tryHexPatriciaTrie` meets it. The packages
    `state` and `commitment` are not part of these files, so the results of
    their calls are arguments. -/
structure Commitment where
  /-- The error of `state.NewSharedDomains`, if any. -/
  NewSharedDomains : Option Error
  /-- The result of `hph.Process(cliCtx.Context, s.Updates(), "calcroot")`
      after `domains.SetTxNum(toTxNum)`. -/
  Process : Nat → Except Error Bytes

/-- The function `tryHexPatriciaTrie`. -/
def tryHexPatriciaTrie (co : Commitment) (toTxNum : Nat) : Run (Option Error) :=
  match co.NewSharedDomains with
  | some err => pure (some err)
  | none => do
    let res ← (match co.Process toTxNum with
      | .error err => (pure (some err) : Run (Option Error))
      | .ok rootHash => do
        Run.printf ("rootHash=0x" ++ fmtHex rootHash ++ "\n")
        pure none)
    Run.emit (.close "domains")
    pure res

/-- The function `calcRoot` from the opening of the database on. -/
def calcRootBody (w : World) (co : Commitment) (toTxNum : Nat) : Run (Option Error) := do
  let _ ← openChainDb w
  let res ← tryHexPatriciaTrie co toTxNum
  closeAll
  pure res

/-- The function `calcRoot`. Its call of `tryHexPatriciaTrie` passes two
    arguments to a function of three; the one left out, `toTxNum`, is an
    argument here. -/
def calcRoot (w : World) (co : Commitment) (toTxNum : Nat) (cliCtx : Cli) :
    Run (Option Error) :=
  match w.setup with
  | some err => pure (some err)
  | none => do
    let _ ← checkArgs cliCtx
    calcRootBody w co toTxNum

/-- A `uint16` under the verb `%d`. -/
def fmtDec (n : Nat) : String := toString n

/-- The tail shared by the lines the two callbacks print. -/
def lineNode (ev : NodeEvent) : String :=
  "keyHex=0x" ++ fmtHex ev.pfx ++ ", hasState=" ++ fmtDec ev.presenceBitmap
    ++ ", hasTree=" ++ fmtDec ev.treeBitmap ++ ", hasHash=" ++ fmtDec ev.hashBitmap
    ++ ", hashes=0x" ++ fmtHex ev.childHashes.flatten ++ ", rootHash=0x" ++ fmtHex ev.nodeHash
    ++ "\n"

/-- The callbacks `hc` and `shc` of `tryFlatKVLoader`: the line printed for
    one invocation. -/
def lineCallback (ev : NodeEvent) : String :=
  match ev.account with
  | none => lineNode ev
  | some accWithInc => "accWithInc=0x" ++ fmtHex accWithInc ++ ", " ++ lineNode ev

/-- The callbacks invoked by the loader, each printing its line. -/
def runCallbacks : List NodeEvent → Run Unit
  | [] => pure ()
  | ev :: rest => do
    Run.printf (lineCallback ev)
    runCallbacks rest

/-- The function passed to `chaindb.View` in `tryFlatKVLoader`; the loader,
    of package `trie`, is an argument. -/
def tryFlatKVLoaderView (loader : RetainList → Tx → LoaderRun) (rd : RetainList) (tx : Tx) :
    Run (Option Error) := do
  runCallbacks (loader rd tx).events
  match (loader rd tx).result with
  | .error err => pure (some err)
  | .ok res => do
    Run.printf ("root=0x" ++ fmtHex res ++ "\n")
    pure none

/-- The function `tryFlatKVLoader`, as the run of its statements. The source
    declares an `error` result, but the body ends in the expression statement
    `chaindb.View(...)`, whose value no statement reads, and holds no return
    statement (Go reports a missing return): the source gives the function no
    result value, and this run carries none. -/
def tryFlatKVLoader (loader : RetainList → Tx → LoaderRun) (chaindb : RwDB) : Run Unit := do
  let rd := NewRetainList 0
  let _ ← View chaindb (tryFlatKVLoaderView loader rd)
  pure ()

/-! ## Properties of runs -/

namespace Run

/-- A run whose fatal exits all carry an error value: none of them is one of
    the two argument checks. -/
def Late {α : Type} (x : Run α) : Prop :=
  ∀ f : Fatal, x.res = .error f → f.arg ≠ none

end Run

/-- A command stopped by one of the two argument checks. -/
def Rejected {α : Type} (r : Run α) : Prop :=
  r.res = .error ⟨"Must supply dbname", none⟩ ∨ r.res = .error ⟨"Must supply key", none⟩

/-- The argument validation of a command: it fails with `Must supply dbname`
    exactly when the first positional argument is empty, otherwise with `Must
    supply key` exactly when the second one is, and a command stopped by either
    check has done nothing yet: the database was not opened. -/
def ValidatesArgs (cmd : Cli → Run (Option Error)) : Prop :=
  ∀ cliCtx : Cli,
    ((cmd cliCtx).res = .error ⟨"Must supply dbname", none⟩ ↔ cliCtx.First = "") ∧
    (cliCtx.First ≠ "" →
      ((cmd cliCtx).res = .error ⟨"Must supply key", none⟩ ↔ cliCtx.Get 1 = "")) ∧
    (Rejected (cmd cliCtx) → (cmd cliCtx).trace = [])

/-- Every callback invocation of the list names a nibble prefix the decider
    retains. -/
def Retained (rl : RetainList) (evs : List NodeEvent) : Prop :=
  ∀ ev ∈ evs, rl.shouldRetain ev.pfx = true

/-! ## Sample collaborators -/

namespace Sample

/-- Table names as package `kv` spells them. -/
def kv : Kv := ⟨"CanonicalHeader", "Header", "BlockBody", "PlainState"⟩

/-- A transaction on a database with no entries. -/
def tx : Tx :=
  { GetOne := fun _ _ => .ok []
    ForEach := fun _ _ => ([], none)
    Range := fun _ _ _ => .ok []
    RangeDupSort := fun _ _ _ _ _ _ => .ok [] }

/-- A database with no tables. -/
def chaindb : RwDB := ⟨[], .ok tx⟩

/-- A process whose logger setup succeeds and whose database opens. -/
def world : World := ⟨none, .ok chaindb⟩

/-- An engine that answers with the root `0xab`. -/
def commitment : Commitment := ⟨none, fun _ => .ok [0xab]⟩

/-- A stand-in for the encoding of a node: a tag, then the fields with their
    lengths. -/
def encode : TrieNode → Bytes
  | .Leaf p v => 0 :: p.length :: p ++ v
  | .Extension p h => 1 :: p.length :: p ++ h
  | .Branch cs v =>
    2 :: cs.length :: cs.flatMap (fun x => x.1 :: x.2.length :: x.2)
      ++ (match v with | none => [0] | some w => 1 :: w)
  | .HashOnly h => h

/-- A stand-in for the NodeCodec: the hash of an encoding is the encoding
    itself, so that distinct encodings never collide, and the sentinel of the
    empty trie is the empty hash. -/
def codec : NodeCodec := ⟨encode, fun bs => bs, []⟩

/-- Stored values of any shape, the storage root left out of the account. -/
def shape : ValueShape := ⟨fun _ => true, fun _ => true, fun v _ => v⟩

/-- No cancellation is ever seen. -/
def never : Nat → Bool := fun _ => false

/-- The batch of the concrete scenario of the spec, `0x01 -> 0xAA` and
    `0x02 -> 0xBB`. -/
def batch : List Update := [⟨[0x01], some [0xAA]⟩, ⟨[0x02], some [0xBB]⟩]

/-- The engine after the batch of the concrete scenario on a fresh engine. -/
def twoKeys : Engine :=
  match Process codec never Engine.fresh batch with
  | .ok (_, e) => e
  | .error _ => Engine.fresh

end Sample

/-! ## Facts about runs -/

namespace Run

theorem bind_def {α β : Type} (x : Run α) (f : α → Run β) : x >>= f = x.andThen f := rfl

theorem pure_def {α : Type} (a : α) : (pure a : Run α) = ⟨[], .ok a⟩ := rfl

theorem andThen_ok {α β : Type} (x : Run α) (f : α → Run β) (a : α) (h : x.res = .ok a) :
    x.andThen f = ⟨x.trace ++ (f a).trace, (f a).res⟩ := by
  unfold andThen
  rw [h]

theorem andThen_error {α β : Type} (x : Run α) (f : α → Run β) (e : Fatal)
    (h : x.res = .error e) : x.andThen f = ⟨x.trace, .error e⟩ := by
  unfold andThen
  rw [h]

theorem late_pure {α : Type} (a : α) : Late (pure a : Run α) := by
  intro f h
  cases h

theorem late_emit (e : Event) : Late (emit e) := by
  intro f h
  cases h

theorem late_printf (s : String) : Late (printf s) := late_emit _

theorem late_fatalf {α : Type} (format : String) (e : Error) :
    Late (fatalf format (some e) : Run α) := by
  intro f h
  cases h
  simp

theorem late_bind {α β : Type} (x : Run α) (f : α → Run β) (hx : Late x)
    (hf : ∀ a, Late (f a)) : Late (x >>= f) := by
  intro fa h
  rw [bind_def] at h
  cases hr : x.res with
  | error e =>
    rw [andThen_error x f e hr] at h
    cases h
    exact hx _ hr
  | ok a =>
    rw [andThen_ok x f a hr] at h
    exact hf a fa h

end Run

open Run

/-! ## The argument checks -/

theorem late_drain (line : Bytes → Bytes → String) (failed : String) (st : Stream) :
    Late (drain line failed st) := by
  induction st with
  | nil => exact late_pure _
  | cons x rest ih =>
    cases x with
    | error e => exact late_fatalf _ _
    | ok kv =>
      obtain ⟨k, v⟩ := kv
      exact late_bind _ _ (late_printf _) (fun _ => ih)

theorem late_decodeOrFatal (s : String) : Late (decodeOrFatal s) := by
  unfold decodeOrFatal
  split
  · exact late_fatalf _ _
  · exact late_pure _

theorem late_decodeKey (key : String) : Late (decodeKey key) := by
  unfold decodeKey
  split <;> exact late_decodeOrFatal _

theorem late_openChainDb (w : World) : Late (openChainDb w) := by
  unfold openChainDb
  refine late_bind _ _ (late_emit _) (fun _ => late_bind _ _ (late_emit _) (fun _ => ?_))
  split
  · exact late_fatalf _ _
  · exact late_pure _

theorem late_closeAll : Late closeAll :=
  late_bind _ _ (late_emit _) (fun _ => late_emit _)

theorem late_View (chaindb : RwDB) (f : Tx → Run (Option Error)) (hf : ∀ tx, Late (f tx)) :
    Late (View chaindb f) := by
  unfold View
  refine late_bind _ _ (late_emit _) (fun _ => ?_)
  split
  · exact late_pure _
  · exact hf _

theorem late_dbGetOneView (cliCtx : Cli) (dbname : String) (keybuf : Bytes) (tx : Tx) :
    Late (dbGetOneView cliCtx dbname keybuf tx) := by
  unfold dbGetOneView
  repeat' first
    | exact late_pure _ | exact late_emit _ | exact late_printf _ | exact late_fatalf _ _
    | exact late_drain _ _ _ | exact late_decodeOrFatal _ | exact late_decodeKey _
    | refine late_bind _ _ ?_ (fun _ => ?_) | split

theorem late_dbGetSwitch (kv : Kv) (dbname key : String) : Late (dbGetSwitch kv dbname key) := by
  unfold dbGetSwitch
  repeat' first
    | exact late_pure _ | exact late_emit _ | exact late_printf _ | exact late_fatalf _ _
    | exact late_drain _ _ _ | exact late_decodeOrFatal _ | exact late_decodeKey _
    | refine late_bind _ _ ?_ (fun _ => ?_) | split

theorem late_dumpTable (table : String) (tx : Tx) : Late (dumpTable table tx) := by
  unfold dumpTable
  repeat' first
    | exact late_pure _ | exact late_emit _ | exact late_printf _ | exact late_fatalf _ _
    | exact late_drain _ _ _ | exact late_decodeOrFatal _ | exact late_decodeKey _
    | refine late_bind _ _ ?_ (fun _ => ?_) | split

theorem late_dumpOne (key : String) (tx : Tx) : Late (dumpOne key tx) := by
  unfold dumpOne
  repeat' first
    | exact late_pure _ | exact late_emit _ | exact late_printf _ | exact late_fatalf _ _
    | exact late_drain _ _ _ | exact late_decodeOrFatal _ | exact late_decodeKey _
    | refine late_bind _ _ ?_ (fun _ => ?_) | split

theorem late_dumpAll (chaindb : RwDB) (tables : List String) : Late (dumpAll chaindb tables) := by
  induction tables with
  | nil => exact late_pure _
  | cons t rest ih =>
    exact late_bind _ _ (late_printf _) (fun _ =>
      late_bind _ _ (late_View _ _ (late_dumpTable t)) (fun _ => ih))

theorem late_walkEqual (keybuf : Bytes) (ce : Option Error) (l : List (Bytes × Bytes)) :
    Late (walkEqual keybuf ce l) := by
  induction l with
  | nil => exact late_pure _
  | cons x rest ih =>
    obtain ⟨k, v⟩ := x
    unfold walkEqual
    split
    · exact late_bind _ _ (late_printf _) (fun _ => ih)
    · exact late_pure _

theorem late_dbGetView (dbname : String) (keybuf : Bytes) (tx : Tx) :
    Late (dbGetView dbname keybuf tx) := by
  unfold dbGetView
  repeat' first
    | exact late_pure _ | exact late_emit _ | exact late_printf _ | exact late_fatalf _ _
    | exact late_drain _ _ _ | exact late_walkEqual _ _ _
    | refine late_bind _ _ ?_ (fun _ => ?_) | split

theorem late_tryHexPatriciaTrie (co : Commitment) (n : Nat) : Late (tryHexPatriciaTrie co n) := by
  unfold tryHexPatriciaTrie
  repeat' first
    | exact late_pure _ | exact late_emit _ | exact late_printf _ | exact late_fatalf _ _
    | refine late_bind _ _ ?_ (fun _ => ?_) | split

/-- What the two argument checks give. -/
theorem checkArgs_eq (cliCtx : Cli) :
    checkArgs cliCtx =
      if cliCtx.First = "" then ⟨[], .error ⟨"Must supply dbname", none⟩⟩
      else if cliCtx.Get 1 = "" then ⟨[], .error ⟨"Must supply key", none⟩⟩
      else ⟨[], .ok (cliCtx.First, cliCtx.Get 1)⟩ := by
  unfold checkArgs
  by_cases h1 : cliCtx.First = ""
  · simp [h1, Run.bind_def, Run.andThen, Run.fatalf]
  · by_cases h2 : cliCtx.Get 1 = ""
    · simp [h1, h2, Run.bind_def, Run.andThen, Run.fatalf, Run.pure_def]
    · simp [h1, h2, Run.bind_def, Run.andThen, Run.fatalf, Run.pure_def]

/-- A command that starts with the two argument checks and whose later fatal
    exits all carry an error value. -/
theorem checked_then {β : Type} (cliCtx : Cli) (rest : String × String → Run β)
    (hrest : ∀ a, Late (rest a)) :
    ((checkArgs cliCtx >>= rest).res = .error ⟨"Must supply dbname", none⟩ ↔ cliCtx.First = "") ∧
    (cliCtx.First ≠ "" →
      ((checkArgs cliCtx >>= rest).res = .error ⟨"Must supply key", none⟩ ↔ cliCtx.Get 1 = "")) ∧
    (cliCtx.First = "" ∨ cliCtx.Get 1 = "" → (checkArgs cliCtx >>= rest).trace = []) ∧
    (cliCtx.First ≠ "" → cliCtx.Get 1 ≠ "" →
      checkArgs cliCtx >>= rest = rest (cliCtx.First, cliCtx.Get 1)) := by
  rw [checkArgs_eq, Run.bind_def]
  by_cases h1 : cliCtx.First = ""
  · simp [h1, Run.andThen]
  · by_cases h2 : cliCtx.Get 1 = ""
    · simp [h1, h2, Run.andThen]
    · simp only [h1, h2, if_false, Run.andThen, List.nil_append]
      refine ⟨⟨fun h => ?_, fun h => h.elim⟩, fun _ => ⟨fun h => ?_, fun h => h.elim⟩, ?_, ?_⟩
      · exact absurd rfl (hrest _ _ h)
      · exact absurd rfl (hrest _ _ h)
      · intro h
        cases h with
        | inl h => exact h.elim
        | inr h => exact h.elim
      · intro _ _
        trivial
theorem validates_of_checked (cmd : Cli → Run (Option Error))
    (rest : Cli → String × String → Run (Option Error))
    (h : ∀ cliCtx, cmd cliCtx = checkArgs cliCtx >>= rest cliCtx)
    (hrest : ∀ cliCtx a, Late (rest cliCtx a)) : ValidatesArgs cmd := by
  intro cliCtx
  rw [h cliCtx]
  obtain ⟨h1, h2, h3, _⟩ := checked_then cliCtx (rest cliCtx) (hrest cliCtx)
  refine ⟨h1, h2, fun hr => h3 ?_⟩
  cases hr with
  | inl hr => exact Or.inl (h1.mp hr)
  | inr hr =>
    by_cases hf : cliCtx.First = ""
    · exact Or.inl hf
    · exact Or.inr ((h2 hf).mp hr)

theorem late_dbGetBody (kv : Kv) (w : World) (dbname key : String) :
    Late (dbGetBody kv w dbname key) := by
  unfold dbGetBody
  repeat' first
    | exact late_pure _ | exact late_emit _ | exact late_printf _ | exact late_closeAll
    | exact late_openChainDb _ | exact late_dbGetSwitch _ _ _ | exact late_dumpAll _ _
    | exact late_View _ _ (late_dumpOne _) | exact late_View _ _ (late_dbGetView _ _)
    | refine late_bind _ _ ?_ (fun _ => ?_) | split

theorem late_dbGetOneBody (w : World) (cliCtx : Cli) (dbname key : String) :
    Late (dbGetOneBody w cliCtx dbname key) := by
  unfold dbGetOneBody
  repeat' first
    | exact late_pure _ | exact late_closeAll | exact late_decodeKey _
    | exact late_openChainDb _ | exact late_View _ _ (late_dbGetOneView _ _ _)
    | refine late_bind _ _ ?_ (fun _ => ?_)

theorem late_calcRootBody (w : World) (co : Commitment) (n : Nat) :
    Late (calcRootBody w co n) := by
  unfold calcRootBody
  repeat' first
    | exact late_pure _ | exact late_closeAll | exact late_tryHexPatriciaTrie _ _
    | exact late_openChainDb _
    | refine late_bind _ _ ?_ (fun _ => ?_)

theorem dbGet_validates (kv : Kv) (w : World) (hsetup : w.setup = none) :
    ValidatesArgs (dbGet kv w) := by
  refine validates_of_checked _ (fun _ a => dbGetBody kv w a.1 a.2) ?_
    (fun _ _ => late_dbGetBody _ _ _ _)
  intro cliCtx
  unfold dbGet
  rw [hsetup]

theorem dbGetOne_validates (w : World) (hsetup : w.setup = none) :
    ValidatesArgs (dbGetOne w) := by
  refine validates_of_checked _ (fun cliCtx a => dbGetOneBody w cliCtx a.1 a.2) ?_
    (fun _ _ => late_dbGetOneBody _ _ _ _)
  intro cliCtx
  unfold dbGetOne
  rw [hsetup]

theorem calcRoot_validates (w : World) (co : Commitment) (n : Nat) (hsetup : w.setup = none) :
    ValidatesArgs (calcRoot w co n) := by
  refine validates_of_checked _ (fun _ _ => calcRootBody w co n) ?_
    (fun _ _ => late_calcRootBody _ _ _)
  intro cliCtx
  unfold calcRoot
  rw [hsetup]

/-- A command that validates its arguments rejects an invocation with fewer
    than two positional arguments. -/
theorem rejected_of_short (cmd : Cli → Run (Option Error)) (h : ValidatesArgs cmd)
    (cliCtx : Cli) (hlen : cliCtx.args.length < 2) : Rejected (cmd cliCtx) := by
  obtain ⟨h1, h2, _⟩ := h cliCtx
  have hget : cliCtx.Get 1 = "" := by
    unfold Cli.Get
    rw [List.getD_eq_default _ _ (by omega)]
  by_cases hf : cliCtx.First = ""
  · exact Or.inl (h1.mpr hf)
  · exact Or.inr ((h2 hf).mpr hget)

/-- With both arguments present `calcRoot` runs its body, in which neither
    argument occurs. -/
theorem calcRoot_of_args (w : World) (co : Commitment) (n : Nat) (cliCtx : Cli)
    (hsetup : w.setup = none) (h1 : cliCtx.First ≠ "") (h2 : cliCtx.Get 1 ≠ "") :
    calcRoot w co n cliCtx = calcRootBody w co n := by
  unfold calcRoot
  rw [hsetup]
  exact (checked_then cliCtx (fun _ => calcRootBody w co n)
    (fun _ => late_calcRootBody _ _ _)).2.2.2 h1 h2

/-- C8: after a successful logger setup each of `dbGet`, `dbGetOne` and
    `calcRoot` fails with `Must supply dbname` exactly when the first positional
    argument is empty, and otherwise with `Must supply key` exactly when the
    second one is, before anything else has happened (the database is not
    opened). So an invocation with one argument is rejected by all three,
    `dbget dumpall` is rejected for its missing key, `calcroot` with fewer than
    two arguments is rejected, and with both arguments present `calcRoot` does
    the same whatever they are. -/
theorem argument_validation (kv : Kv) (w : World) (co : Commitment) (toTxNum : Nat)
    (hsetup : w.setup = none) :
    ValidatesArgs (dbGet kv w) ∧ ValidatesArgs (dbGetOne w) ∧
    ValidatesArgs (calcRoot w co toTxNum) ∧
    (∀ a : String, Rejected (dbGet kv w ⟨[a]⟩) ∧ Rejected (dbGetOne w ⟨[a]⟩) ∧
      Rejected (calcRoot w co toTxNum ⟨[a]⟩)) ∧
    (dbGet kv w ⟨["dumpall"]⟩).res = .error ⟨"Must supply key", none⟩ ∧
    (∀ cliCtx : Cli, cliCtx.args.length < 2 → Rejected (calcRoot w co toTxNum cliCtx)) ∧
    (∀ c1 c2 : Cli, c1.First ≠ "" → c1.Get 1 ≠ "" → c2.First ≠ "" → c2.Get 1 ≠ "" →
      calcRoot w co toTxNum c1 = calcRoot w co toTxNum c2) := by
  have hg := dbGet_validates kv w hsetup
  have ho := dbGetOne_validates w hsetup
  have hc := calcRoot_validates w co toTxNum hsetup
  refine ⟨hg, ho, hc, fun a => ⟨?_, ?_, ?_⟩, ?_, fun cliCtx hlen => ?_, ?_⟩
  · exact rejected_of_short _ hg ⟨[a]⟩ (by simp)
  · exact rejected_of_short _ ho ⟨[a]⟩ (by simp)
  · exact rejected_of_short _ hc ⟨[a]⟩ (by simp)
  · exact ((hg ⟨["dumpall"]⟩).2.1 (by decide)).mpr (by decide)
  · exact rejected_of_short _ hc cliCtx hlen
  · intro c1 c2 h1 h2 h3 h4
    rw [calcRoot_of_args w co toTxNum c1 hsetup h1 h2, calcRoot_of_args w co toTxNum c2 hsetup h3 h4]

/-- C8 at a process whose logger setup succeeds. -/
theorem argument_validation_witness :
    Sample.world.setup = none ∧
    (dbGet Sample.kv Sample.world ⟨["dumpall"]⟩).res = .error ⟨"Must supply key", none⟩ :=
  ⟨rfl, (argument_validation Sample.kv Sample.world Sample.commitment 0 rfl).2.2.2.2.1⟩

/-! ## The key of the canonical-header lookup -/

theorem digitChar_toNat (d : Nat) (h : d < 10) :
    '0' ≤ Nat.digitChar d ∧ Nat.digitChar d ≤ '9' ∧ (Nat.digitChar d).toNat - '0'.toNat = d := by
  interval_cases d <;> decide

theorem parseUintLoop_digit (s0 : String) (acc d : Nat) (rest : List Char) (hd : d < 10)
    (hacc : acc * 10 + d < 2 ^ 64) :
    parseUintLoop s0 acc (Nat.digitChar d :: rest) = parseUintLoop s0 (acc * 10 + d) rest := by
  obtain ⟨h1, h2, h3⟩ := digitChar_toNat d hd
  have hcut : ¬ acc ≥ maxUint64 / 10 + 1 := by
    unfold maxUint64
    omega
  have hmod1 : acc * 10 % 2 ^ 64 = acc * 10 := Nat.mod_eq_of_lt (by omega)
  have hmod2 : (acc * 10 + d) % 2 ^ 64 = acc * 10 + d := Nat.mod_eq_of_lt hacc
  have hchk : ¬ (acc * 10 + d < acc * 10 ∨ acc * 10 + d > maxUint64) := by
    unfold maxUint64
    omega
  simp only [parseUintLoop, h1, h2, and_self, if_true, h3, hcut, if_false, hmod1, hmod2, hchk,
    ge_iff_le, Nat.not_le.mpr hd]

theorem parseUintLoop_toDigitsCore (s0 : String) (fuel : Nat) :
    ∀ (n : Nat) (ds : List Char), n < fuel → n < 2 ^ 64 →
      parseUintLoop s0 0 (Nat.toDigitsCore 10 fuel n ds) = parseUintLoop s0 n ds := by
  induction fuel with
  | zero => intro n ds h; omega
  | succ fuel ih =>
    intro n ds hfuel hn
    unfold Nat.toDigitsCore
    by_cases hz : n / 10 = 0
    · simp only [hz, if_true]
      have hlt : n < 10 := by omega
      have := parseUintLoop_digit s0 0 (n % 10) ds (by omega) (by omega)
      rw [this]
      congr 1
      omega
    · simp only [hz, if_false]
      rw [ih (n / 10) _ (by omega) (by omega)]
      rw [parseUintLoop_digit s0 (n / 10) (n % 10) ds (by omega) (by omega)]
      congr 1
      omega

theorem toDigits_ne_nil (n : Nat) : Nat.toDigits 10 n ≠ [] := by
  unfold Nat.toDigits Nat.toDigitsCore
  by_cases hz : n / 10 = 0
  · simp [hz]
  · simp only [hz, if_false]
    intro h
    have hlen := Nat.toDigitsCore_lens_eq 10 n (n / 10) (Nat.digitChar (n % 10)) []
    rw [h] at hlen
    simp at hlen

theorem parseUint_toString (n : Nat) (hn : n < 2 ^ 64) : parseUint (toString n) = .ok n := by
  have hdata : (toString n).data = Nat.toDigits 10 n := rfl
  unfold parseUint
  rw [hdata, if_neg (toDigits_ne_nil n)]
  unfold Nat.toDigits
  rw [parseUintLoop_toDigitsCore _ (n + 1) n [] (by omega) hn]
  rfl

theorem has0x_of_parseUint (key : String) (n : Nat) (h : parseUint key = .ok n) :
    has0x key = false := by
  unfold has0x
  split
  · rename_i rest c hdata
    unfold parseUint at h
    rw [hdata] at h
    simp [parseUintLoop] at h
  · rfl

theorem bigEndianValue_putUint64 (n : Nat) (hn : n < 2 ^ 64) :
    bigEndianValue (putUint64 n) = n := by
  unfold bigEndianValue putUint64
  simp only [List.foldl]
  omega

theorem dbGetSwitch_number (kv : Kv) (dbname key : String) (n : Nat)
    (halias : dbname = "header_canonical" ∨ dbname = "headercanonical" ∨ dbname = "headercan"
      ∨ dbname = "hc")
    (hkey : parseUint key = .ok n) :
    dbGetSwitch kv dbname key =
      ⟨[.stdout ("keybuf: " ++ fmtHex (putUint64 n) ++ "\n")], .ok (kv.HeaderCanonical, putUint64 n)⟩ := by
  unfold dbGetSwitch
  rw [if_pos halias, has0x_of_parseUint key n hkey, hkey]
  rfl

/-- C6: for each alias of the canonical-header table and every key that is
    the decimal text of a number `n` below `2^64`, the key buffer `dbGet` builds
    is the 8-byte big-endian encoding of `n`, which read back as a big-endian
    unsigned integer is `n`; the key `0` gives eight zero bytes. -/
theorem header_canonical_key (kv : Kv) (dbname : String) (n : Nat)
    (halias : dbname = "header_canonical" ∨ dbname = "headercanonical" ∨ dbname = "headercan"
      ∨ dbname = "hc")
    (hn : n < 2 ^ 64) :
    (dbGetSwitch kv dbname (toString n)).res = .ok (kv.HeaderCanonical, putUint64 n) ∧
    (putUint64 n).length = 8 ∧ (∀ b ∈ putUint64 n, b < 256) ∧
    bigEndianValue (putUint64 n) = n ∧
    (dbGetSwitch kv dbname "0").res = .ok (kv.HeaderCanonical, [0, 0, 0, 0, 0, 0, 0, 0]) := by
  refine ⟨?_, rfl, ?_, bigEndianValue_putUint64 n hn, ?_⟩
  · rw [dbGetSwitch_number kv dbname _ n halias (parseUint_toString n hn)]
  · intro b hb
    unfold putUint64 at hb
    simp only [List.mem_cons, List.mem_singleton, List.not_mem_nil, or_false] at hb
    omega
  · rw [dbGetSwitch_number kv dbname "0" 0 halias (by decide)]
    rfl

/-- C6 at the alias `hc` and the key `300`. -/
theorem header_canonical_key_witness :
    (dbGetSwitch Sample.kv "hc" "300").res = .ok ("CanonicalHeader", [0, 0, 0, 0, 0, 0, 1, 44]) :=
  (header_canonical_key Sample.kv "hc" 300 (by decide) (by decide)).1

/-! ## `tryHexPatriciaTrie` -/

/-- C1: when the shared domains are created without error, a root `r` from
    `Process` makes `tryHexPatriciaTrie` print the one line `rootHash=0x`
    followed by the lowercase hex of `r` and return no error, and an error `e`
    from `Process` makes it return `e` and print nothing. -/
theorem tryHexPatriciaTrie_result (co : Commitment) (toTxNum : Nat)
    (hnew : co.NewSharedDomains = none) :
    (∀ r : Bytes, co.Process toTxNum = .ok r →
      (tryHexPatriciaTrie co toTxNum).output = ["rootHash=0x" ++ fmtHex r ++ "\n"] ∧
      (tryHexPatriciaTrie co toTxNum).res = .ok none) ∧
    (∀ e : Error, co.Process toTxNum = .error e →
      (tryHexPatriciaTrie co toTxNum).output = [] ∧
      (tryHexPatriciaTrie co toTxNum).res = .ok (some e)) := by
  constructor
  · intro r hr
    unfold tryHexPatriciaTrie
    rw [hnew, hr]
    exact ⟨rfl, rfl⟩
  · intro e he
    unfold tryHexPatriciaTrie
    rw [hnew, he]
    exact ⟨rfl, rfl⟩

/-- C1 at an engine that answers with the root `0xab`. -/
theorem tryHexPatriciaTrie_result_witness :
    (tryHexPatriciaTrie Sample.commitment 7).output = ["rootHash=0xab\n"] ∧
    (tryHexPatriciaTrie Sample.commitment 7).res = .ok none :=
  (tryHexPatriciaTrie_result Sample.commitment 7 rfl).1 [0xab] rfl

/-! ## `tryFlatKVLoader` -/

theorem reads_bind_of_ok {α β : Type} (x : Run α) (f : α → Run β) (a : α)
    (h : x.res = .ok a) : (x >>= f).reads = x.reads ++ (f a).reads := by
  rw [bind_def, andThen_ok x f a h]
  simp [reads]

theorem reads_bind_of_error {α β : Type} (x : Run α) (f : α → Run β) (e : Fatal)
    (h : x.res = .error e) : (x >>= f).reads = x.reads := by
  rw [bind_def, andThen_error x f e h]
  rfl

/-- A step that issues no read, whether or not it stops the process, adds
    nothing to the reads of what follows. -/
theorem reads_bind_silent {α β : Type} (x : Run α) (f : α → Run β) (rs : List DbOp)
    (hx : x.reads = []) (hf : ∀ a, (f a).reads = rs) :
    (x >>= f).reads = rs ∨ (x >>= f).reads = [] := by
  cases h : x.res with
  | ok a =>
    left
    rw [reads_bind_of_ok x f a h, hx, hf a]
    rfl
  | error e =>
    right
    rw [reads_bind_of_error x f e h, hx]

theorem reads_drain (line : Bytes → Bytes → String) (failed : String) (st : Stream) :
    (drain line failed st).reads = [] := by
  induction st with
  | nil => rfl
  | cons x rest ih =>
    cases x with
    | error e => rfl
    | ok kv =>
      obtain ⟨k, v⟩ := kv
      unfold drain
      rw [reads_bind_of_ok (printf (line k v)) _ () rfl, ih]
      rfl

theorem walkEqual_run (keybuf : Bytes) (ce : Option Error) (l : List (Bytes × Bytes)) :
    (walkEqual keybuf ce l).reads = [] ∧ ∃ r, (walkEqual keybuf ce l).res = .ok r := by
  induction l with
  | nil => exact ⟨rfl, ce, rfl⟩
  | cons x rest ih =>
    obtain ⟨k, v⟩ := x
    unfold walkEqual
    split
    · obtain ⟨h1, r, h2⟩ := ih
      refine ⟨?_, r, ?_⟩
      · rw [reads_bind_of_ok (printf (lineKeyVal80 k v)) _ () rfl, h1]
        rfl
      · rw [bind_def, andThen_ok _ _ () rfl]
        exact h2
    · exact ⟨rfl, some .notEqual, rfl⟩

/-- The reads of the last view of `dbGet` name the table `dbname`, the first
    positional argument as it was typed. -/
theorem reads_dbGetView (dbname : String) (keybuf : Bytes) (tx : Tx) :
    (dbGetView dbname keybuf tx).reads =
      [.ForEach dbname keybuf,
       .RangeDupSort dbname keybuf [0, 0, 0, 0, 0, 0, 1, 0x94] [0, 0, 0, 0, 0, 0, 1, 0x95]
         true (-1)] := by
  obtain ⟨hw1, r, hw2⟩ := walkEqual_run keybuf (tx.ForEach dbname keybuf).2 (tx.ForEach dbname keybuf).1
  unfold dbGetView
  rw [reads_bind_of_ok (emit _) _ () rfl, reads_bind_of_ok _ _ r hw2, hw1,
    reads_bind_of_ok (printf _) _ () rfl, reads_bind_of_ok (emit _) _ () rfl]
  cases hs : tx.RangeDupSort dbname keybuf (hexDecodeString "0000000000000194").1
      (hexDecodeString "0000000000000195").1 true (-1) with
  | error e => rfl
  | ok stream =>
    simp only []
    cases hd : (drain lineKeyVal80 "Failed to get acc: %v" stream).res with
    | ok u =>
      rw [reads_bind_of_ok _ _ u hd, reads_drain]
      rfl
    | error e =>
      rw [reads_bind_of_error _ _ e hd, reads_drain]
      rfl

/-- C7, at the invocation `dbget hc 0` on any database that opens: whatever
    the table names of package `kv` are and whatever the database holds, the
    reads `dbGet` issues name the table `hc`. -/
theorem dbGet_reads_alias (kv : Kv) (tables : List String) (tx : Tx) :
    (dbGet kv ⟨none, .ok ⟨tables, .ok tx⟩⟩ ⟨["hc", "0"]⟩).reads =
      [.ForEach "hc" [0, 0, 0, 0, 0, 0, 0, 0],
       .RangeDupSort "hc" [0, 0, 0, 0, 0, 0, 0, 0] [0, 0, 0, 0, 0, 0, 1, 0x94]
         [0, 0, 0, 0, 0, 0, 1, 0x95] true (-1)] := by
  have hargs : checkArgs ⟨["hc", "0"]⟩ = ⟨[], .ok ("hc", "0")⟩ := rfl
  have hsw := dbGetSwitch_number kv "hc" "0" 0 (Or.inr (Or.inr (Or.inr rfl))) (by decide)
  have hview : ∀ chaindb : RwDB, chaindb.beginRo = .ok tx →
      (View chaindb (dbGetView "hc" (putUint64 0))).reads =
        [.ForEach "hc" [0, 0, 0, 0, 0, 0, 0, 0],
         .RangeDupSort "hc" [0, 0, 0, 0, 0, 0, 0, 0] [0, 0, 0, 0, 0, 0, 1, 0x94]
           [0, 0, 0, 0, 0, 0, 1, 0x95] true (-1)] := by
    intro chaindb hb
    unfold View
    rw [reads_bind_of_ok (emit .view) _ () rfl, hb]
    exact reads_dbGetView "hc" (putUint64 0) tx
  have hbody : (dbGetBody kv ⟨none, .ok ⟨tables, .ok tx⟩⟩ "hc" "0").reads =
      [.ForEach "hc" [0, 0, 0, 0, 0, 0, 0, 0],
       .RangeDupSort "hc" [0, 0, 0, 0, 0, 0, 0, 0] [0, 0, 0, 0, 0, 0, 1, 0x94]
         [0, 0, 0, 0, 0, 0, 1, 0x95] true (-1)] := by
    unfold dbGetBody
    rw [reads_bind_of_ok (openChainDb ⟨none, .ok ⟨tables, .ok tx⟩⟩) _ ⟨tables, .ok tx⟩ rfl, hsw,
      reads_bind_of_ok _ _ (kv.HeaderCanonical, putUint64 0) rfl]
    rw [if_neg (by decide), if_neg (by decide)]
    cases hd : (View ⟨tables, .ok tx⟩ (dbGetView "hc" (putUint64 0))).res with
    | ok u =>
      rw [reads_bind_of_ok _ _ u hd, hview _ rfl]
      rfl
    | error e =>
      rw [reads_bind_of_error _ _ e hd, hview _ rfl]
      rfl
  unfold dbGet
  simp only []
  rw [hargs, reads_bind_of_ok _ _ ("hc", "0") rfl]
  exact hbody

/-! ## The Commitment Engine on an empty batch -/

theorem isTouched_nil (p : NibblePath) : isTouched [] p = false := rfl

theorem isTouched_cons_root (u : Update) (us : List Update) : isTouched (u :: us) [] = true := by
  simp [isTouched]

theorem filter_untouched_nil (cache : HashCache) (t : Trie) :
    cache.filter (fun e => !isTouched [] e.1 && !(t.hasNodeAt e.1 && !t.hasNodeAt e.1)) = cache := by
  apply List.filter_eq_self.mpr
  intro a _
  cases h : t.hasNodeAt a.1 <;> simp [isTouched_nil, h]

theorem updateCache_nil (cache : HashCache) (t : Trie) : updateCache cache [] t t [] = cache := by
  unfold updateCache
  rw [filter_untouched_nil]
  simp

theorem rootOf_nil_computed (c : NodeCodec) (cache : HashCache) (t : Trie) (r : Hash)
    (computed : List (NibblePath × Hash)) (h : rootOf c cache [] t = .ok (r, computed)) :
    computed = [] := by
  unfold rootOf viaCache at h
  rw [isTouched_nil] at h
  split at h
  · cases h; rfl
  · simp only [Bool.false_eq_true, if_false] at h
    split at h
    · cases h; rfl
    · cases h
    · split at h
      · cases h
      · cases h; rfl

/-- An empty batch leaves the engine as it is and returns what the root
    computation gives. -/
theorem Process_nil (c : NodeCodec) (cancelled : Nat → Bool) (e : Engine) (r : Hash)
    (computed : List (NibblePath × Hash)) (h : rootOf c e.cache [] e.trie = .ok (r, computed)) :
    Process c cancelled e [] = .ok (r, e) := by
  have hc := rootOf_nil_computed c e.cache e.trie r computed h
  subst hc
  unfold Process
  simp only [sortBatch, hasDuplicateKey, applyBatch, Bool.false_eq_true, if_false, h,
    updateCache_nil]

theorem lookup_append_cons (k : NibblePath) (v : Option Hash) (l1 l2 : HashCache)
    (h : ∀ x ∈ l1, x.1 ≠ k) : (l1 ++ (k, v) :: l2).lookup k = some v := by
  induction l1 with
  | nil => simp [List.lookup]
  | cons x rest ih =>
    obtain ⟨a, b⟩ := x
    have hne : a ≠ k := h (a, b) (List.mem_cons_self _ _)
    have hbeq : (k == a) = false := by
      simp only [beq_eq_false_iff_ne, ne_eq]
      exact fun hk => hne hk.symm
    simp only [List.cons_append, List.lookup, hbeq]
    exact ih (fun x hx => h x (List.mem_cons_of_mem _ hx))

theorem rootOf_after (c : NodeCodec) (cache : HashCache) (u : Update) (us : List Update)
    (before t : Trie) (r : Hash) (computed : List (NibblePath × Hash))
    (h : rootOf c cache (u :: us) t = .ok (r, computed)) :
    rootOf c (updateCache cache (u :: us) before t computed) [] t = .ok (r, []) := by
  unfold rootOf at h ⊢
  cases ht : t.isEmpty with
  | true =>
    rw [ht] at h
    simp only [if_true] at h ⊢
    cases h
    rfl
  | false =>
    rw [ht] at h
    simp only [Bool.false_eq_true, if_false] at h ⊢
    unfold viaCache at h ⊢
    rw [isTouched_cons_root] at h
    rw [isTouched_nil]
    simp only [if_true, Bool.false_eq_true, if_false] at h ⊢
    cases hn : hashNode c cache (u :: us) t [] with
    | error err =>
      rw [hn] at h
      cases h
    | ok res =>
      obtain ⟨hsh, comp⟩ := res
      rw [hn] at h
      cases h
      have hl : (updateCache cache (u :: us) before t ((([] : NibblePath), r) :: comp)).lookup []
          = some (some r) := by
        unfold updateCache
        rw [List.map_cons]
        apply lookup_append_cons
        intro x hx hk
        rw [List.mem_filter] at hx
        have := hx.2
        rw [hk, isTouched_cons_root] at this
        simp at this
      rw [hl]

/-- C4: after any call of `Process` that returned a root, for every engine
    state before it and every batch, a call with the empty batch returns that
    same root and leaves the engine as it is; and a call with the empty batch
    never changes the engine it is made on. -/
theorem empty_batch_idempotent (c : NodeCodec) (cancelled cancelledAgain : Nat → Bool)
    (e : Engine) (updateBatch : List Update) (root : Hash) (after : Engine)
    (h : Process c cancelled e updateBatch = .ok (root, after)) :
    Process c cancelledAgain after [] = .ok (root, after) ∧ (updateBatch = [] → after = e) := by
  unfold Process at h
  simp only at h
  cases hd : hasDuplicateKey (sortBatch updateBatch) with
  | true =>
    rw [hd] at h
    cases h
  | false =>
    rw [hd] at h
    simp only [Bool.false_eq_true, if_false] at h
    cases ha : applyBatch cancelled 0 e.trie (sortBatch updateBatch) with
    | error err =>
      rw [ha] at h
      cases h
    | ok t =>
      rw [ha] at h
      simp only at h
      cases hr : rootOf c e.cache (sortBatch updateBatch) t with
      | error err =>
        rw [hr] at h
        cases h
      | ok res =>
        obtain ⟨r, computed⟩ := res
        rw [hr] at h
        cases h
        cases hb : sortBatch updateBatch with
        | nil =>
          rw [hb] at hr ha
          simp only [applyBatch] at ha
          cases ha
          have hc := rootOf_nil_computed c e.cache e.trie root computed hr
          subst hc
          rw [updateCache_nil]
          exact ⟨Process_nil c cancelledAgain e root [] hr, fun _ => rfl⟩
        | cons u us =>
          rw [hb] at hr
          refine ⟨Process_nil c cancelledAgain _ root []
            (rootOf_after c e.cache u us e.trie t root computed hr), fun hnil => ?_⟩
          rw [hnil] at hb
          cases hb

/-- C4 at the batch of the concrete scenario of the spec on a fresh engine. -/
theorem empty_batch_idempotent_witness :
    Process Sample.codec Sample.never Engine.fresh Sample.batch
      = .ok ([1, 1, 0, 2, 2, 1, 3, 0, 0, 170, 2, 3, 0, 0, 187, 0], Sample.twoKeys) ∧
    Process Sample.codec Sample.never Sample.twoKeys []
      = .ok ([1, 1, 0, 2, 2, 1, 3, 0, 0, 170, 2, 3, 0, 0, 187, 0], Sample.twoKeys) :=
  ⟨rfl, (empty_batch_idempotent Sample.codec Sample.never Sample.never Engine.fresh Sample.batch
    [1, 1, 0, 2, 2, 1, 3, 0, 0, 170, 2, 3, 0, 0, 187, 0] Sample.twoKeys rfl).1⟩

/-! ## Empty input -/

/-- C3: for an empty key range the loader returns the empty-trie sentinel and
    invokes neither callback, whatever the retain decider; for an empty batch
    the engine over the empty trie, as a newly created engine is, returns the
    empty-trie sentinel. -/
theorem empty_input_root (c : NodeCodec) (shape : ValueShape) (cancelled : Nat → Bool)
    (rl : RetainList) (cache : HashCache) :
    (CalcTrieRoot c shape cancelled [] rl).result = .ok c.emptyRoot ∧
    (CalcTrieRoot c shape cancelled [] rl).events = [] ∧
    Process c cancelled Engine.fresh [] = .ok (c.emptyRoot, Engine.fresh) ∧
    Process c cancelled ⟨.empty, cache⟩ [] = .ok (c.emptyRoot, ⟨.empty, cache⟩) :=
  ⟨rfl, rfl, Process_nil c cancelled Engine.fresh c.emptyRoot [] rfl,
   Process_nil c cancelled ⟨.empty, cache⟩ c.emptyRoot [] rfl⟩

/-! ## The callbacks of the loader -/

theorem retained_nil (rl : RetainList) : Retained rl [] := by
  intro ev h
  cases h

theorem retained_append (rl : RetainList) (a b : List NodeEvent) (ha : Retained rl a)
    (hb : Retained rl b) : Retained rl (a ++ b) := by
  intro ev h
  rcases List.mem_append.mp h with h | h
  · exact ha ev h
  · exact hb ev h

theorem retained_closeFrame (c : NodeCodec) (rl : RetainList) (account : Option Bytes)
    (f : Frame) : Retained rl (closeFrame c rl account f).2 := by
  unfold closeFrame
  split
  · exact retained_nil rl
  · exact retained_nil rl
  · exact retained_nil rl
  · by_cases hr : rl.shouldRetain f.pfx = true
    · simp only [hr, if_true]
      intro ev hev
      simp only [List.mem_singleton] at hev
      rw [hev]
      exact hr
    · simp only [hr, if_false]
      exact retained_nil rl

theorem retained_closeAbove (c : NodeCodec) (rl : RetainList) (account : Option Bytes)
    (depth : Nat) (stack : List Frame) :
    ∀ pending, Retained rl (closeAbove c rl account depth stack pending).2 := by
  induction stack with
  | nil => intro _; exact retained_nil rl
  | cons f rest ih =>
    intro pending
    unfold closeAbove
    split
    · exact retained_append rl _ _ (retained_closeFrame c rl account _) (ih _)
    · exact retained_nil rl

theorem retained_addKey (c : NodeCodec) (rl : RetainList) (account : Option Bytes)
    (stack : List Frame) (key : NibblePath) (v : Bytes) :
    Retained rl (addKey c rl account stack key v).2 :=
  retained_closeAbove c rl account _ stack none

theorem retained_finish (c : NodeCodec) (rl : RetainList) (account : Option Bytes)
    (stack : List Frame) : Retained rl (finish c rl account stack).2 := by
  unfold finish
  have h1 := retained_closeAbove c rl account 0 stack none
  simp only []
  split
  · exact h1
  · split
    · exact retained_append rl _ _ h1 (retained_closeFrame c rl account _)
    · exact retained_append rl _ _ h1 (retained_closeFrame c rl account _)

theorem retained_flush (c : NodeCodec) (shape : ValueShape) (rl : RetainList) (l : Loader)
    (h : Retained rl l.events) : Retained rl (l.flush c shape rl).events := by
  unfold Loader.flush
  split
  · exact h
  · exact retained_append rl _ _ (retained_append rl _ _ h (retained_finish c rl _ _))
      (retained_addKey c rl none _ _ _)

theorem retained_step (c : NodeCodec) (shape : ValueShape) (rl : RetainList) (l l1 : Loader)
    (key value : Bytes) (h : Retained rl l.events) (hs : l.step c shape rl key value = .ok l1) :
    Retained rl l1.events := by
  unfold Loader.step at hs
  split at hs
  · split at hs
    · split at hs
      · cases hs
        exact retained_append rl _ _ h (retained_addKey c rl _ _ _ _)
      · cases hs
    · split at hs
      · cases hs
        exact retained_flush c shape rl l h
      · cases hs
  · split at hs
    · cases hs
      exact h
    · cases hs

theorem retained_run (c : NodeCodec) (shape : ValueShape) (rl : RetainList)
    (cancelled : Nat → Bool) (range : List Read) :
    ∀ (i : Nat) (l : Loader), Retained rl l.events →
      Retained rl (Loader.run c shape rl cancelled i l range).events := by
  induction range with
  | nil =>
    intro i l h
    unfold Loader.run
    exact retained_append rl _ _ (retained_flush c shape rl l h) (retained_finish c rl none _)
  | cons r rest ih =>
    intro i l h
    cases r with
    | failure =>
      unfold Loader.run
      exact h
    | entry key value =>
      unfold Loader.run
      split
      · exact h
      · split
        · exact h
        · rename_i l1 hs
          exact ih (i + 1) l1 (retained_step c shape rl l l1 key value h hs)

/-- No non-retained prefix is ever emitted: every callback invocation of a
    load names a nibble prefix the decider retains. -/
theorem retained_CalcTrieRoot (c : NodeCodec) (shape : ValueShape) (cancelled : Nat → Bool)
    (range : List Read) (rl : RetainList) :
    Retained rl (CalcTrieRoot c shape cancelled range rl).events :=
  retained_run c shape rl cancelled range 0 Loader.start (retained_nil rl)

theorem events_of_empty_retain_list (c : NodeCodec) (shape : ValueShape) (cancelled : Nat → Bool)
    (range : List Read) (n : Nat) :
    (CalcTrieRoot c shape cancelled range (NewRetainList n)).events = [] := by
  have h := retained_CalcTrieRoot c shape cancelled range (NewRetainList n)
  cases hev : (CalcTrieRoot c shape cancelled range (NewRetainList n)).events with
  | nil => rfl
  | cons ev rest =>
    have := h ev (by rw [hev]; exact List.mem_cons_self _ _)
    simp [RetainList.shouldRetain, NewRetainList] at this

/-- What `tryFlatKVLoader` prints when the loader invokes no callback. -/
theorem tryFlatKVLoader_output (loader : RetainList → Tx → LoaderRun) (chaindb : RwDB)
    (h : ∀ tx, (loader (NewRetainList 0) tx).events = []) :
    (tryFlatKVLoader loader chaindb).output =
      match chaindb.beginRo with
      | .error _ => []
      | .ok tx =>
        match (loader (NewRetainList 0) tx).result with
        | .ok root => ["root=0x" ++ fmtHex root ++ "\n"]
        | .error _ => [] := by
  unfold tryFlatKVLoader View
  cases hb : chaindb.beginRo with
  | error e => rfl
  | ok tx =>
    simp only [bind_def]
    rw [andThen_ok (emit .view) _ () rfl]
    simp only [tryFlatKVLoaderView, bind_def, h tx, runCallbacks]
    cases hr : (loader (NewRetainList 0) tx).result with
    | error e => rfl
    | ok r => rfl

/-- C5: with the empty retain list of `NewRetainList(0)` the loader invokes
    neither callback, for every key range, and all `tryFlatKVLoader` prints is
    the root line of a load that succeeds. -/
theorem empty_retain_list_output (c : NodeCodec) (shape : ValueShape) (cancelled : Nat → Bool)
    (range : Tx → List Read) (chaindb : RwDB) :
    (∀ keys : List Read,
      (CalcTrieRoot c shape cancelled keys (NewRetainList 0)).events = []) ∧
    (tryFlatKVLoader (fun rd tx => CalcTrieRoot c shape cancelled (range tx) rd) chaindb).output =
      match chaindb.beginRo with
      | .error _ => []
      | .ok tx =>
        match (CalcTrieRoot c shape cancelled (range tx) (NewRetainList 0)).result with
        | .ok root => ["root=0x" ++ fmtHex root ++ "\n"]
        | .error _ => [] :=
  ⟨fun keys => events_of_empty_retain_list c shape cancelled keys 0,
   tryFlatKVLoader_output _ chaindb
     (fun tx => events_of_empty_retain_list c shape cancelled (range tx) 0)⟩

/-- The loader does invoke a callback when the decider retains the prefix of
    a branch: the two keys of the concrete scenario under a decider that
    retains everything. -/
theorem retained_branch_example :
    (CalcTrieRoot Sample.codec Sample.shape Sample.never
      [.entry [0x01] [0xAA], .entry [0x02] [0xBB]] ⟨[.wildcard []]⟩).events.map (fun ev => ev.pfx)
      = [[0]] ∧
    (CalcTrieRoot Sample.codec Sample.shape Sample.never
      [.entry [0x01] [0xAA], .entry [0x02] [0xBB]] ⟨[.wildcard []]⟩).result
      = .ok [1, 1, 0, 2, 2, 1, 3, 0, 0, 170, 2, 3, 0, 0, 187, 0] := by
  exact ⟨rfl, rfl⟩

/-! ## The two modes on the concrete scenario of the spec -/

/-- The batch `0x01 -> 0xAA`, `0x02 -> 0xBB` on the empty trie gives a Branch
    with two Leaf children below the shared nibble; the order of the batch does
    not matter; deleting `0x02` afterwards gives the root of the one-key trie;
    and the loader computes the root of the engine from the same pairs. -/
theorem concrete_scenario_example :
    (Process Sample.codec Sample.never Engine.fresh Sample.batch).map Prod.fst
      = .ok [1, 1, 0, 2, 2, 1, 3, 0, 0, 170, 2, 3, 0, 0, 187, 0] ∧
    (Process Sample.codec Sample.never Engine.fresh Sample.batch.reverse).map Prod.fst
      = .ok [1, 1, 0, 2, 2, 1, 3, 0, 0, 170, 2, 3, 0, 0, 187, 0] ∧
    (Process Sample.codec Sample.never Sample.twoKeys [⟨[0x02], none⟩]).map Prod.fst
      = (Process Sample.codec Sample.never Engine.fresh [⟨[0x01], some [0xAA]⟩]).map Prod.fst ∧
    (CalcTrieRoot Sample.codec Sample.shape Sample.never
      [.entry [0x01] [0xAA], .entry [0x02] [0xBB]] (NewRetainList 0)).result
      = .ok [1, 1, 0, 2, 2, 1, 3, 0, 0, 170, 2, 3, 0, 0, 187, 0] ∧
    Process Sample.codec Sample.never Engine.fresh
      [⟨[0x01], some [0xAA]⟩, ⟨[0x01], some [0xBB]⟩] = .error .DuplicateKeyError := by
  exact ⟨rfl, rfl, rfl, rfl, rfl⟩

end Erigon
